import Mathlib

/-!
Verification development for the Tyck schema-definition library.

The Python source is shallowly embedded in Lean:

* `src/tyck/types_.py` — the `TyckType` builder base class and the
  `StringValidator` chainable builder (constraint accumulation, metadata,
  `build()` producing a `(type, FieldInfo)` pair).
* `src/tyck/interface.py` / `src/tyck/api/functional.py` — field-definition
  resolution and the deterministic `Interface_<md5-8>` naming scheme
  (MD5 is implemented here in full, over `Nat` arithmetic modulo `2^32`).
* `src/tyck/api/utils.py` — the schema algebra (`pick_fields`, `omit_fields`,
  `make_optional`, `make_required`, `merge_schemas`) over the resolved field
  mapping of a synthesized model.

Python dictionaries are embedded as insertion-ordered association lists with
`dictInsert` (assignment to an existing key overwrites the value in place and
keeps the key at its first-insertion position, matching `dict` semantics).
Mutable Python objects are embedded by value; the builder chain methods follow
the source pattern "copy, mutate the copy, return it", and builder
immutability is stated against an explicit object heap.

The external validation engine (pydantic) is not part of the repository; the
small part of its contract that the claims exercise (required-versus-default
fields, base-type checks, length and numeric bound constraints) is modelled
from the contract stated in the specification.
-/

/-- Embedded Python values, covering the values the claims exercise
(defaults and validated field values). -/
inductive PyVal where
  | none
  | str (s : String)
  | int (n : Int)
  | bool (b : Bool)
  deriving DecidableEq, Repr

/-- Pre-validation string rewrites and post-type-check predicates attached to
the annotation by `StringValidator.build` (`src/tyck/types_.py` lines
254-288): one `BeforeValidator` closing over the three transform flags, and
an `AfterValidator` for the embedded-JSON check. -/
inductive StrTransform where
  | stringTransform (stripWs toLower toUpper : Bool)
  | validateJson
  deriving DecidableEq, Repr

/-- Type annotations (Python type expressions) occurring in field
definitions: primitives, `Optional[t]`, a nested synthesized model (kept
opaque by name), `Any`, and `Annotated[str, validators]`. -/
inductive TypeDesc where
  | str
  | int
  | float
  | bool
  | noneType
  | anyType
  | optional (t : TypeDesc)
  | model (name : String)
  | annotated (t : TypeDesc) (ts : List StrTransform)
  deriving DecidableEq, Repr

/-- Content constraints carried by a pydantic `FieldInfo` in its metadata
list (pydantic converts the `min_length=`/`max_length=`/`pattern=`/numeric
keyword arguments of `Field(...)` into this list). -/
inductive Constraint where
  | minLength (n : Nat)
  | maxLength (n : Nat)
  | pattern (p : String)
  | gt (v : Int)
  | ge (v : Int)
  | lt (v : Int)
  | le (v : Int)
  | multipleOf (v : Int)
  deriving DecidableEq, Repr

/-- Embedding of a pydantic `FieldInfo`: the annotation (absent until a type
is attached, as in a bare `Field(...)` call), the default (`Option.none`
embeds `PydanticUndefined`, i.e. a required field), the metadata attributes,
and the content-constraint list. -/
structure FieldInfo where
  ann : Option TypeDesc
  default : Option PyVal
  aliasName : Option String
  title : Option String
  description : Option String
  examples : Option (List PyVal)
  deprecated : Bool
  metadata : List Constraint
  deriving DecidableEq, Repr

/-- A `FieldInfo` with no arguments set, as produced by `Field()`. -/
def FieldInfo.empty : FieldInfo :=
  { ann := Option.none, default := Option.none, aliasName := Option.none,
    title := Option.none, description := Option.none, examples := Option.none,
    deprecated := false, metadata := [] }

/-- A synthesized schema, embedded as its resolved field mapping
`__pydantic_fields__`: insertion-ordered field name to `FieldInfo`. -/
def Schema := List (String × FieldInfo)

instance : DecidableEq Schema :=
  inferInstanceAs (DecidableEq (List (String × FieldInfo)))

instance : Membership (String × FieldInfo) Schema :=
  inferInstanceAs (Membership (String × FieldInfo) (List (String × FieldInfo)))

/-- Ordered-dictionary lookup (`d[k]` / `k in d`): first entry with the key. -/
def lookupStr {α : Type} (m : List (String × α)) (k : String) : Option α :=
  (m.find? (fun p => p.1 == k)).map (fun p => p.2)

/-- Ordered-dictionary assignment `d[k] = v`: overwrite in place if the key
is present (keeping its position), else append. -/
def dictInsert {α : Type} (m : List (String × α)) (k : String) (v : α) :
    List (String × α) :=
  if m.any (fun p => p.1 == k) then
    m.map (fun p => if p.1 == k then (k, v) else p)
  else
    m ++ [(k, v)]

/-! ## Builder states (`src/tyck/types_.py`)

`TyckType.__init__` sets `_constraints = {}`, `_default = PydanticUndefined`,
`_has_default = False`, `_alias = _description = _title = _examples = None`,
`_deprecated = False`.  The leading underscore of the Python attribute names
is dropped; `_default`/`_has_default` become `defaultVal`/`hasDefault`
(`default` itself names the chain method, as in the source).  The generic
`specific` payload holds the attributes a concrete validator subclass adds.
`_copy` copies the `_constraints` dictionary and the `_examples` list, so the
value semantics of this embedding match the object semantics of the source. -/
structure TyckType (α : Type) where
  constraints : List (String × Bool)
  hasDefault : Bool
  defaultVal : PyVal
  aliasName : Option String
  title : Option String
  description : Option String
  examples : Option (List PyVal)
  deprecated : Bool
  specific : α
  deriving DecidableEq, Repr

/-- Chain method `TyckType.default(value)`: copy, set `_default` and
`_has_default` on the copy, return the copy. -/
def TyckType.default {α : Type} (b : TyckType α) (value : PyVal) : TyckType α :=
  { b with defaultVal := value, hasDefault := true }

/-- Chain method `TyckType.optional()`: the source body is
`return self.default(None)`. -/
def TyckType.optional {α : Type} (b : TyckType α) : TyckType α :=
  TyckType.default b PyVal.none

/-- Chain method `TyckType.alias(name)`. -/
def TyckType.setAlias {α : Type} (b : TyckType α) (name : String) : TyckType α :=
  { b with aliasName := some name }

/-- Chain method `TyckType.description(text)`. -/
def TyckType.setDescription {α : Type} (b : TyckType α) (text : String) : TyckType α :=
  { b with description := some text }

/-- Chain method `TyckType.title(text)`. -/
def TyckType.setTitle {α : Type} (b : TyckType α) (text : String) : TyckType α :=
  { b with title := some text }

/-- Chain method `TyckType.examples(*values)`: sets `_examples` to the list
of arguments. -/
def TyckType.setExamples {α : Type} (b : TyckType α) (values : List PyVal) : TyckType α :=
  { b with examples := some values }

/-- Chain method `TyckType.deprecated(is_deprecated=True)`. -/
def TyckType.setDeprecated {α : Type} (b : TyckType α) (isDeprecated : Bool) : TyckType α :=
  { b with deprecated := isDeprecated }

/-- Python truthiness of an `Optional[str]` attribute (`if self._alias:`):
`None` and the empty string are falsy. -/
def truthyOptStr : Option String → Bool
  | Option.none => false
  | some s => s != ""

/-- Python truthiness of an `Optional[list]` attribute (`if self._examples:`):
`None` and the empty list are falsy. -/
def truthyOptList : Option (List PyVal) → Bool
  | Option.none => false
  | some l => l != []

/-- `TyckType._build_field_kwargs`: the keyword arguments shared by every
`build()`, as the `FieldInfo` they produce.  `default` is included only when
`_has_default` is set; the metadata attributes only when truthy. -/
def TyckType.buildFieldKwargs {α : Type} (b : TyckType α) : FieldInfo :=
  { ann := Option.none
    default := if b.hasDefault then some b.defaultVal else Option.none
    aliasName := if truthyOptStr b.aliasName then b.aliasName else Option.none
    description := if truthyOptStr b.description then b.description else Option.none
    title := if truthyOptStr b.title then b.title else Option.none
    examples := if truthyOptList b.examples then b.examples else Option.none
    deprecated := b.deprecated
    metadata := [] }

/-- The attributes `StringValidator.__init__` adds on top of `TyckType`. -/
structure StrSpecific where
  minLength : Option Nat
  maxLength : Option Nat
  pattern : Option String
  stripWhitespace : Bool
  toLower : Bool
  toUpper : Bool
  deriving DecidableEq, Repr

/-- State of a `StringValidator` object. -/
def StrState := TyckType StrSpecific

instance : DecidableEq StrState :=
  inferInstanceAs (DecidableEq (TyckType StrSpecific))

instance : Repr StrState :=
  inferInstanceAs (Repr (TyckType StrSpecific))

/-- The `string` singleton of `src/tyck/types_.py`: a fresh
`StringValidator()`. -/
def stringSingleton : StrState :=
  { constraints := [], hasDefault := false, defaultVal := PyVal.none,
    aliasName := Option.none, title := Option.none, description := Option.none,
    examples := Option.none, deprecated := false,
    specific := { minLength := Option.none, maxLength := Option.none,
                  pattern := Option.none, stripWhitespace := false,
                  toLower := false, toUpper := false } }

namespace StringValidator

/-- The class constant `EMAIL_PATTERN`. -/
def EMAIL_PATTERN : String :=
  "^[a-zA-Z0-9._%+-]+@[a-zA-Z0-9.-]+\\.[a-zA-Z]\x7b2,\x7d$"

/-- Chain method `StringValidator.min(length)`. -/
def min (b : StrState) (length : Nat) : StrState :=
  { b with specific := { b.specific with minLength := some length } }

/-- Chain method `StringValidator.max(length)`. -/
def max (b : StrState) (length : Nat) : StrState :=
  { b with specific := { b.specific with maxLength := some length } }

/-- Chain method `StringValidator.length(length)`: sets both bounds. -/
def length (b : StrState) (len : Nat) : StrState :=
  { b with specific := { b.specific with minLength := some len, maxLength := some len } }

/-- Chain method `StringValidator.pattern(regex)`. -/
def patternC (b : StrState) (regex : String) : StrState :=
  { b with specific := { b.specific with pattern := some regex } }

/-- Chain method `StringValidator.email()`: sets `_pattern` to
`EMAIL_PATTERN`. -/
def email (b : StrState) : StrState :=
  patternC b EMAIL_PATTERN

/-- Chain method `StringValidator.json()`: sets the `json_validate` key of
the `_constraints` dictionary on the copy (the dictionary itself was copied
by `_copy`). -/
def jsonC (b : StrState) : StrState :=
  { b with constraints := dictInsert b.constraints "json_validate" true }

/-- Chain method `StringValidator.strip()`. -/
def strip (b : StrState) : StrState :=
  { b with specific := { b.specific with stripWhitespace := true } }

/-- Chain method `StringValidator.lower()`. -/
def lower (b : StrState) : StrState :=
  { b with specific := { b.specific with toLower := true } }

/-- Chain method `StringValidator.upper()`. -/
def upper (b : StrState) : StrState :=
  { b with specific := { b.specific with toUpper := true } }

/-- `StringValidator.build`: keyword arguments from `_build_field_kwargs`
plus `min_length`/`max_length`/`pattern` when set (pydantic stores those in
the metadata list, in keyword order), and the base type `str`, wrapped in
`Annotated` when transforms or the embedded-JSON check are present. -/
def build (b : StrState) : TypeDesc × FieldInfo :=
  let kwargs := TyckType.buildFieldKwargs b
  let meta1 := match b.specific.minLength with
    | some n => [Constraint.minLength n]
    | Option.none => []
  let meta2 := match b.specific.maxLength with
    | some n => meta1 ++ [Constraint.maxLength n]
    | Option.none => meta1
  let meta3 := match b.specific.pattern with
    | some p => meta2 ++ [Constraint.pattern p]
    | Option.none => meta2
  let transforms :=
    (if b.specific.stripWhitespace || b.specific.toLower || b.specific.toUpper then
      [StrTransform.stringTransform b.specific.stripWhitespace b.specific.toLower b.specific.toUpper]
    else []) ++
    (if (lookupStr b.constraints "json_validate").getD false then
      [StrTransform.validateJson]
    else [])
  let baseType := if transforms = [] then TypeDesc.str else TypeDesc.annotated TypeDesc.str transforms
  (baseType, { kwargs with metadata := meta3 })

end StringValidator

/-! ## Remaining `StringValidator` chain methods

The format methods all assign a pattern constant, exactly like `email`.
Literal braces inside the regex constants are written with `\x7b`/`\x7d`. -/

namespace StringValidator

/-- The class constant `URL_PATTERN`. -/
def URL_PATTERN : String :=
  "^https?://(?:[-\\w.])+(?:[:\\d]+)?(?:/(?:[\\w/_.\\-~%])*(?:\\?(?:[\\w&=%.\\-])*)?(?:#(?:[\\w.\\-])*)?)?$"

/-- The class constant `UUID_PATTERN`. -/
def UUID_PATTERN : String :=
  "^[0-9a-fA-F]\x7b8\x7d-[0-9a-fA-F]\x7b4\x7d-[0-9a-fA-F]\x7b4\x7d-[0-9a-fA-F]\x7b4\x7d-[0-9a-fA-F]\x7b12\x7d$"

/-- The class constant `DATETIME_PATTERN`. -/
def DATETIME_PATTERN : String :=
  "^\\d\x7b4\x7d-\\d\x7b2\x7d-\\d\x7b2\x7dT\\d\x7b2\x7d:\\d\x7b2\x7d:\\d\x7b2\x7d(?:\\.\\d+)?(?:Z|[+-]\\d\x7b2\x7d:\\d\x7b2\x7d)?$"

/-- The class constant `DATE_PATTERN`. -/
def DATE_PATTERN : String :=
  "^\\d\x7b4\x7d-\\d\x7b2\x7d-\\d\x7b2\x7d$"

/-- The class constant `TIME_PATTERN`. -/
def TIME_PATTERN : String :=
  "^\\d\x7b2\x7d:\\d\x7b2\x7d:\\d\x7b2\x7d(?:\\.\\d+)?$"

/-- The class constant `IPV4_PATTERN`. -/
def IPV4_PATTERN : String :=
  "^(?:(?:25[0-5]|2[0-4][0-9]|[01]?[0-9][0-9]?)\\.)\x7b3\x7d(?:25[0-5]|2[0-4][0-9]|[01]?[0-9][0-9]?)$"

/-- The class constant `IPV6_PATTERN`. -/
def IPV6_PATTERN : String :=
  "^(?:[0-9a-fA-F]\x7b1,4\x7d:)\x7b7\x7d[0-9a-fA-F]\x7b1,4\x7d$"

/-- Chain method `StringValidator.url()`. -/
def url (b : StrState) : StrState := patternC b URL_PATTERN

/-- Chain method `StringValidator.uuid()`. -/
def uuid (b : StrState) : StrState := patternC b UUID_PATTERN

/-- Chain method `StringValidator.datetime()`. -/
def datetime (b : StrState) : StrState := patternC b DATETIME_PATTERN

/-- Chain method `StringValidator.date()`. -/
def date (b : StrState) : StrState := patternC b DATE_PATTERN

/-- Chain method `StringValidator.time()`. -/
def time (b : StrState) : StrState := patternC b TIME_PATTERN

/-- Chain method `StringValidator.ip(version=None)`. -/
def ip (b : StrState) (version : Option Nat) : StrState :=
  if version == some 4 then patternC b IPV4_PATTERN
  else if version == some 6 then patternC b IPV6_PATTERN
  else patternC b ("(" ++ IPV4_PATTERN ++ ")|(" ++ IPV6_PATTERN ++ ")")

end StringValidator

/-! ## Builder objects on an explicit heap

Python builders are heap objects; every chain method runs
`new = self._copy()`, mutates only `new`, and returns it.  The heap is a
list of builder states, an object reference is an index, and a chain call
appends the modified copy, leaving every existing object untouched. -/

/-- One chain call on a `StringValidator`, with its arguments (the calls
inherited from `TyckType` included). -/
inductive ChainCall where
  | minC (n : Nat)
  | maxC (n : Nat)
  | lengthC (n : Nat)
  | emailC
  | urlC
  | uuidC
  | patternCall (p : String)
  | datetimeC
  | dateC
  | timeC
  | ipC (version : Option Nat)
  | jsonCall
  | stripC
  | lowerC
  | upperC
  | defaultC (v : PyVal)
  | optionalC
  | aliasC (s : String)
  | descriptionC (s : String)
  | titleC (s : String)
  | examplesC (vs : List PyVal)
  | deprecatedC (b : Bool)
  deriving DecidableEq, Repr

/-- Dispatch a chain call to the corresponding source method. -/
def applyChain (s : StrState) : ChainCall → StrState
  | .minC n => StringValidator.min s n
  | .maxC n => StringValidator.max s n
  | .lengthC n => StringValidator.length s n
  | .emailC => StringValidator.email s
  | .urlC => StringValidator.url s
  | .uuidC => StringValidator.uuid s
  | .patternCall p => StringValidator.patternC s p
  | .datetimeC => StringValidator.datetime s
  | .dateC => StringValidator.date s
  | .timeC => StringValidator.time s
  | .ipC v => StringValidator.ip s v
  | .jsonCall => StringValidator.jsonC s
  | .stripC => StringValidator.strip s
  | .lowerC => StringValidator.lower s
  | .upperC => StringValidator.upper s
  | .defaultC v => TyckType.default s v
  | .optionalC => TyckType.optional s
  | .aliasC a => TyckType.setAlias s a
  | .descriptionC t => TyckType.setDescription s t
  | .titleC t => TyckType.setTitle s t
  | .examplesC vs => TyckType.setExamples s vs
  | .deprecatedC b => TyckType.setDeprecated s b

/-- A chain call on the object at index `i` of the heap: `_copy` allocates a
fresh object (appended at index `h.length`), the method mutates only that
copy, and its index is returned.  An invalid receiver leaves the heap
unchanged (this case never arises in the source). -/
def applyChainHeap (h : List StrState) (i : Nat) (c : ChainCall) :
    List StrState × Nat :=
  match h[i]? with
  | some s => (h ++ [applyChain s c], h.length)
  | Option.none => (h, i)

/-! ## The validation engine (external collaborator)

Modelled from the spec: the repository delegates value validation to an
external engine (pydantic).  The fragment of the engine contract the claims
exercise is embedded here: a field with no supplied value falls back to its
default and is rejected when it has none; a supplied value is first rewritten
by the pre-validation transforms, then checked against the base type and
every content constraint in the field metadata.  The regex-pattern and
embedded-JSON predicates are delegated to the engine and are modelled as
accepting; no claim in this development evaluates them on a value (claims
about them are settled on the constraint description itself). -/

/-- Modelled from the spec: the pre-validation string rewrites (trim,
case-fold) the core installs as a `BeforeValidator`. -/
def applyStrTransform (t : StrTransform) (v : PyVal) : PyVal :=
  match t, v with
  | .stringTransform st lo up, .str s =>
      let s1 := if st then s.trim else s
      let s2 := if lo then s1.toLower else s1
      let s3 := if up then s2.toUpper else s2
      .str s3
  | _, v => v

/-- Transforms attached to an annotation. -/
def annTransforms : TypeDesc → List StrTransform
  | .annotated _ ts => ts
  | _ => []

/-- Modelled from the spec: base-type acceptance of a value. -/
def typeAccepts : TypeDesc → PyVal → Bool
  | .str, .str _ => true
  | .int, .int _ => true
  | .float, .int _ => true
  | .bool, .bool _ => true
  | .noneType, .none => true
  | .anyType, _ => true
  | .optional t, v => v == PyVal.none || typeAccepts t v
  | .annotated t _, v => typeAccepts t v
  | _, _ => false

/-- Modelled from the spec: acceptance of a value by one content
constraint. -/
def constraintAccepts (c : Constraint) (v : PyVal) : Bool :=
  match c, v with
  | .minLength n, .str s => decide (n ≤ s.length)
  | .maxLength n, .str s => decide (s.length ≤ n)
  | .pattern _, _ => true
  | .gt b, .int n => decide (b < n)
  | .ge b, .int n => decide (b ≤ n)
  | .lt b, .int n => decide (n < b)
  | .le b, .int n => decide (n ≤ b)
  | .multipleOf m, .int n => decide (n % m = 0)
  | _, _ => false

/-- Modelled from the spec: validation of one field against the supplied
value (or its absence). -/
def validateField (fi : FieldInfo) (v : Option PyVal) : Bool :=
  match v with
  | Option.none => fi.default.isSome
  | some v0 =>
      let a := fi.ann.getD TypeDesc.anyType
      let v1 := (annTransforms a).foldl (fun w t => applyStrTransform t w) v0
      typeAccepts a v1 && fi.metadata.all (fun c => constraintAccepts c v1)

/-- Modelled from the spec: validation of a keyed value set against a
schema; extra keys are ignored (the default extra-field policy). -/
def validateSchema (s : Schema) (input : List (String × PyVal)) : Bool :=
  s.all (fun p => validateField p.2 (lookupStr input p.1))

/-! ## MD5 (`hashlib.md5`) over `Nat` arithmetic modulo `2^32`

`interface` derives the default schema name from
`hashlib.md5(field_names.encode()).hexdigest()[:8]`
(`src/tyck/interface.py` lines 80-84, `src/tyck/api/functional.py` lines
84-89).  The digest is implemented here in full (RFC 1321). -/

/-- The 64 per-round shift amounts. -/
def md5shift : List Nat :=
  [7, 12, 17, 22, 7, 12, 17, 22, 7, 12, 17, 22, 7, 12, 17, 22,
   5, 9, 14, 20, 5, 9, 14, 20, 5, 9, 14, 20, 5, 9, 14, 20,
   4, 11, 16, 23, 4, 11, 16, 23, 4, 11, 16, 23, 4, 11, 16, 23,
   6, 10, 15, 21, 6, 10, 15, 21, 6, 10, 15, 21, 6, 10, 15, 21]

/-- The 64 sine-derived constants. -/
def md5sine : List Nat :=
  [0xd76aa478, 0xe8c7b756, 0x242070db, 0xc1bdceee, 0xf57c0faf, 0x4787c62a,
   0xa8304613, 0xfd469501, 0x698098d8, 0x8b44f7af, 0xffff5bb1, 0x895cd7be,
   0x6b901122, 0xfd987193, 0xa679438e, 0x49b40821, 0xf61e2562, 0xc040b340,
   0x265e5a51, 0xe9b6c7aa, 0xd62f105d, 0x02441453, 0xd8a1e681, 0xe7d3fbc8,
   0x21e1cde6, 0xc33707d6, 0xf4d50d87, 0x455a14ed, 0xa9e3e905, 0xfcefa3f8,
   0x676f02d9, 0x8d2a4c8a, 0xfffa3942, 0x8771f681, 0x6d9d6122, 0xfde5380c,
   0xa4beea44, 0x4bdecfa9, 0xf6bb4b60, 0xbebfbc70, 0x289b7ec6, 0xeaa127fa,
   0xd4ef3085, 0x04881d05, 0xd9d4d039, 0xe6db99e5, 0x1fa27cf8, 0xc4ac5665,
   0xf4292244, 0x432aff97, 0xab9423a7, 0xfc93a039, 0x655b59c3, 0x8f0ccc92,
   0xffeff47d, 0x85845dd1, 0x6fa87e4f, 0xfe2ce6e0, 0xa3014314, 0x4e0811a1,
   0xf7537e82, 0xbd3af235, 0x2ad7d2bb, 0xeb86d391]

/-- Rotate a 32-bit word left by `n`. -/
def rotl32 (x n : Nat) : Nat :=
  ((x <<< n) ||| (x >>> (32 - n))) % 4294967296

/-- Bitwise complement of a 32-bit word. -/
def not32 (x : Nat) : Nat := 4294967295 - x

/-- One MD5 round on the state `(a, b, c, d)` with the 16 message words. -/
def md5round (m : List Nat) (st : Nat × Nat × Nat × Nat) (i : Nat) :
    Nat × Nat × Nat × Nat :=
  let (a, b, c, d) := st
  let f :=
    if i < 16 then (b &&& c) ||| (not32 b &&& d)
    else if i < 32 then (d &&& b) ||| (not32 d &&& c)
    else if i < 48 then b ^^^ c ^^^ d
    else c ^^^ (b ||| not32 d)
  let g :=
    if i < 16 then i
    else if i < 32 then (5 * i + 1) % 16
    else if i < 48 then (3 * i + 5) % 16
    else (7 * i) % 16
  let fv := (f + a + md5sine.getD i 0 + m.getD g 0) % 4294967296
  (d, (b + rotl32 fv (md5shift.getD i 0)) % 4294967296, b, c)

/-- Process one 64-byte chunk. -/
def md5chunk (st : Nat × Nat × Nat × Nat) (chunk : List Nat) :
    Nat × Nat × Nat × Nat :=
  let m := (List.range 16).map (fun g =>
    chunk.getD (4 * g) 0 + chunk.getD (4 * g + 1) 0 * 256 +
    chunk.getD (4 * g + 2) 0 * 65536 + chunk.getD (4 * g + 3) 0 * 16777216)
  let r := (List.range 64).foldl (md5round m) st
  ((st.1 + r.1) % 4294967296, (st.2.1 + r.2.1) % 4294967296,
   (st.2.2.1 + r.2.2.1) % 4294967296, (st.2.2.2 + r.2.2.2) % 4294967296)

/-- Little-endian byte expansion of a number, `count` bytes. -/
def leBytes (n count : Nat) : List Nat :=
  (List.range count).map (fun i => (n >>> (8 * i)) % 256)

/-- Split a byte list into 64-byte chunks. -/
def chunks64 (l : List Nat) : List (List Nat) :=
  (List.range ((l.length + 63) / 64)).map (fun i => ((l.drop (64 * i)).take 64))

/-- MD5 padding: a `0x80` byte, zeros to 56 modulo 64, then the bit length
as eight little-endian bytes. -/
def md5pad (msg : List Nat) : List Nat :=
  msg ++ [128] ++ List.replicate ((119 - msg.length % 64) % 64) 0 ++
    leBytes (msg.length * 8) 8

/-- The 16-byte MD5 digest of a byte list. -/
def md5digest (msg : List Nat) : List Nat :=
  let st := (chunks64 (md5pad msg)).foldl md5chunk
    (0x67452301, 0xefcdab89, 0x98badcfe, 0x10325476)
  leBytes st.1 4 ++ leBytes st.2.1 4 ++ leBytes st.2.2.1 4 ++ leBytes st.2.2.2 4

/-- Lowercase hexadecimal digit. -/
def hexDigit (n : Nat) : Char :=
  if n < 10 then Char.ofNat (48 + n) else Char.ofNat (87 + n)

/-- Two lowercase hexadecimal digits of a byte. -/
def byteHex (b : Nat) : List Char :=
  [hexDigit (b / 16), hexDigit (b % 16)]

/-- UTF-8 encoding of one character (`str.encode()`), over `Nat`. -/
def utf8Bytes (c : Char) : List Nat :=
  let n := c.toNat
  if n < 128 then [n]
  else if n < 2048 then [192 + n / 64, 128 + n % 64]
  else if n < 65536 then [224 + n / 4096, 128 + n / 64 % 64, 128 + n % 64]
  else [240 + n / 262144, 128 + n / 4096 % 64, 128 + n / 64 % 64, 128 + n % 64]

/-- UTF-8 bytes of a string. -/
def strBytes (s : String) : List Nat :=
  (s.data.map utf8Bytes).flatten

/-- Embeds `hashlib.md5(s.encode()).hexdigest()`. -/
def md5hex (s : String) : String :=
  String.mk (((md5digest (strBytes s)).map byteHex).flatten)

/-- Embeds the default-name derivation shared by `src/tyck/interface.py`
lines 80-84 and `src/tyck/api/functional.py` lines 84-89:
`"Interface_" + md5("_".join(sorted(field_names))).hexdigest()[:8]`. -/
def generatedInterfaceName (fieldNames : List String) : String :=
  "Interface_" ++ (md5hex (String.intercalate "_"
    (fieldNames.insertionSort (fun a b => a ≤ b)))).take 8

/-! ## Field-definition resolution (`src/tyck/interface.py` lines 51-77)

A field definition is dispatched on its shape.  The spec states that an
unrecognized shape fails with a `SchemaDefinitionError`, so the resolver is
given an error-aware type here; the translated source, however, ends in the
catch-all `else` branch that treats the value as a bare default, and no
branch raises. -/

/-- The shapes a field definition can take.  `builder` carries a
`StringValidator` state (the fully embedded member of the `TyckType`
family). -/
inductive FieldDef where
  | builder (b : StrState)
  | fieldInfoDef (fi : FieldInfo)
  | pairDef (t : TypeDesc) (fi : FieldInfo)
  | nestedModel (name : String)
  | rawType (t : TypeDesc)
  | value (v : PyVal)
  deriving DecidableEq, Repr

/-- The definition error the spec names for unrecognized field shapes. -/
inductive SchemaDefinitionError where
  | unrecognizedShape
  deriving DecidableEq, Repr

/-- What the resolver passes to `create_model` for one field. -/
inductive PydFieldDef where
  | pairF (ann : Option TypeDesc) (fi : FieldInfo)
  | typeRequired (t : TypeDesc)
  | bareValue (v : PyVal)
  deriving DecidableEq, Repr

/-- The dispatch of `interface` over one field definition, branch for
branch: a `TyckType` is built to its `(type, FieldInfo)` tuple; a
`FieldInfo` is paired with its own annotation; a two-element tuple is passed
through; a nested model class and a raw type become `(type, ...)`
(required); anything else is a bare default value. -/
def resolveFieldDef : FieldDef → Except SchemaDefinitionError PydFieldDef
  | .builder b => .ok (.pairF (some (StringValidator.build b).1) (StringValidator.build b).2)
  | .fieldInfoDef fi => .ok (.pairF fi.ann fi)
  | .pairDef t fi => .ok (.pairF (some t) fi)
  | .nestedModel n => .ok (.typeRequired (.model n))
  | .rawType t => .ok (.typeRequired t)
  | .value v => .ok (.bareValue v)

/-- The field-resolution loop of `interface`: build the `pydantic_fields`
dictionary by resolving every definition in insertion order. -/
def interfaceResolveFields (fields : List (String × FieldDef)) :
    Except SchemaDefinitionError (List (String × PydFieldDef)) :=
  fields.foldlM (fun acc p => (resolveFieldDef p.2).map (fun r => dictInsert acc p.1 r)) []

/-- The schema name chosen by `interface`: the explicit `name` argument when
given, else the generated deterministic name. -/
def interfaceName (fields : List (String × FieldDef)) (name : Option String) : String :=
  match name with
  | some n => n
  | Option.none => generatedInterfaceName (fields.map Prod.fst)

/-! ## Schema algebra (`src/tyck/api/utils.py`)

Each operator reads `model_class.__pydantic_fields__`, builds a new
field-definition dictionary of `(annotation, FieldInfo)` tuples, and re-runs
it through `interface`.  On such tuples `interface` passes the pair through
to `create_model`, whose stored field is the given `FieldInfo` with the
given annotation attached; `createModelFromPairs` embeds that step. -/

/-- Embeds `_field_info_to_tuple` (`src/tyck/api/utils.py` lines 17-22):
the field annotation (`Any` when absent) paired with the `FieldInfo`
itself. -/
def fieldInfoToTuple (fi : FieldInfo) : TypeDesc × FieldInfo :=
  (fi.ann.getD TypeDesc.anyType, fi)

/-- The stored field `create_model` derives from one `(annotation,
FieldInfo)` tuple: the supplied `FieldInfo` carrying the supplied
annotation. -/
def resolvedField (q : TypeDesc × FieldInfo) : FieldInfo :=
  { q.2 with ann := some q.1 }

/-- The model produced by `interface`/`create_model` from a dictionary of
`(annotation, FieldInfo)` tuples, as its resolved field mapping. -/
def createModelFromPairs (fields : List (String × (TypeDesc × FieldInfo))) : Schema :=
  fields.map (fun p => (p.1, resolvedField p.2))

/-- Embeds `pick_fields` (`src/tyck/api/utils.py` lines 25-77): walk the
requested names in order, copying the source field or raising `ValueError`
(the spec calls this failure `UnknownFieldError`) when a name is absent. -/
def pickStep (source : Schema) (acc : List (String × (TypeDesc × FieldInfo))) (n : String) :
    Except String (List (String × (TypeDesc × FieldInfo))) :=
  match lookupStr source n with
  | some fi => Except.ok (dictInsert acc n (fieldInfoToTuple fi))
  | Option.none => Except.error ("Field " ++ n ++ " not found in model")

def pick_fields (source : Schema) (fieldNames : List String) : Except String Schema :=
  (fieldNames.foldlM (pickStep source) []).map createModelFromPairs

/-- Embeds `omit_fields` (`src/tyck/api/utils.py` lines 80-130): walk the
source fields in order, copying every field whose name is not in the omitted
set; absent names are silently ignored. -/
def omit_fields (source : Schema) (fieldNames : List String) : Schema :=
  createModelFromPairs (source.foldl (fun acc p =>
    if fieldNames.contains p.1 then acc
    else dictInsert acc p.1 (fieldInfoToTuple p.2)) [])

/-- The per-field transformation of `make_optional` (`src/tyck/api/utils.py`
lines 166-181): the annotation is wrapped in `Optional`, and a brand-new
`FieldInfo` is built by `Field(default=None, alias=..., title=...,
description=..., examples=..., deprecated=...)` — the content constraints of
the source field are not among the copied arguments, so the new metadata
list is empty. -/
def partialFieldTuple (fi : FieldInfo) : TypeDesc × FieldInfo :=
  (TypeDesc.optional (fi.ann.getD TypeDesc.anyType),
   { ann := Option.none, default := some PyVal.none, aliasName := fi.aliasName,
     title := fi.title, description := fi.description, examples := fi.examples,
     deprecated := fi.deprecated, metadata := [] })

/-- Embeds `make_optional` (`src/tyck/api/utils.py` lines 133-192). -/
def make_optional (source : Schema) : Schema :=
  createModelFromPairs (source.foldl (fun acc p =>
    dictInsert acc p.1 (partialFieldTuple p.2)) [])

/-- The per-field transformation of `make_required` (`src/tyck/api/utils.py`
lines 228-241): the annotation is kept as it is (an `Optional` wrapper is
not unwrapped), and a brand-new `FieldInfo` is built by `Field(alias=...,
title=..., description=..., examples=..., deprecated=...)` with no default
and, again, no content constraints. -/
def requiredFieldTuple (fi : FieldInfo) : TypeDesc × FieldInfo :=
  (fi.ann.getD TypeDesc.anyType,
   { ann := Option.none, default := Option.none, aliasName := fi.aliasName,
     title := fi.title, description := fi.description, examples := fi.examples,
     deprecated := fi.deprecated, metadata := [] })

/-- Embeds `make_required` (`src/tyck/api/utils.py` lines 195-252). -/
def make_required (source : Schema) : Schema :=
  createModelFromPairs (source.foldl (fun acc p =>
    dictInsert acc p.1 (requiredFieldTuple p.2)) [])

/-- Embeds `merge_schemas` (`src/tyck/api/utils.py` lines 316-359): one
dictionary filled from every source schema in call order; assignment to an
existing name overwrites its value in place (last write wins, first
position kept), exactly the Python `dict` behaviour.  (The `base=` argument
passed to `interface` only re-declares fields already present in the merged
dictionary and does not change the resolved field mapping.) -/
def merge_schemas (models : List Schema) : Schema :=
  createModelFromPairs (models.foldl (fun acc m =>
    m.foldl (fun acc2 p => dictInsert acc2 p.1 (fieldInfoToTuple p.2)) acc) [])

/-! ## Dictionary lemmas -/

theorem lookupStr_nil {α : Type} (k : String) :
    lookupStr ([] : List (String × α)) k = Option.none := rfl

theorem lookupStr_cons {α : Type} (p : String × α) (t : List (String × α)) (k : String) :
    lookupStr (p :: t) k = if p.1 = k then some p.2 else lookupStr t k := by
  by_cases h : p.1 = k <;> simp [lookupStr, List.find?_cons, h]

theorem lookupStr_eq_none_of_not_mem {α : Type} (m : List (String × α)) (k : String)
    (h : k ∉ m.map Prod.fst) : lookupStr m k = Option.none := by
  induction m with
  | nil => rfl
  | cons p t ih =>
      simp only [List.map_cons, List.mem_cons, not_or] at h
      rw [lookupStr_cons]
      have hne : ¬ p.1 = k := fun hk => h.1 hk.symm
      simp [hne, ih h.2]

theorem lookupStr_isSome_iff_mem {α : Type} (m : List (String × α)) (k : String) :
    (lookupStr m k).isSome = true ↔ k ∈ m.map Prod.fst := by
  induction m with
  | nil => simp [lookupStr_nil]
  | cons p t ih =>
      rw [lookupStr_cons]
      by_cases h : p.1 = k
      · simp [h]
      · have hne : ¬ k = p.1 := fun hk => h hk.symm
        simp [h, ih, hne]

theorem any_key_eq_false_iff {α : Type} (m : List (String × α)) (k : String) :
    (m.any (fun p => p.1 == k) = false) ↔ k ∉ m.map Prod.fst := by
  induction m with
  | nil => simp
  | cons p t ih =>
      simp only [List.any_cons, Bool.or_eq_false_iff, List.map_cons, List.mem_cons,
        not_or, beq_eq_false_iff_ne, ne_eq, ih]
      constructor
      · rintro ⟨h1, h2⟩
        exact ⟨fun hk => h1 hk.symm, h2⟩
      · rintro ⟨h1, h2⟩
        exact ⟨fun hk => h1 hk.symm, h2⟩

theorem dictInsert_keys_mem {α : Type} (m : List (String × α)) (k : String) (v : α)
    (h : m.any (fun p => p.1 == k) = true) :
    (dictInsert m k v).map Prod.fst = m.map Prod.fst := by
  simp only [dictInsert, h, if_true, List.map_map]
  apply List.map_congr_left
  intro p _
  by_cases hp : p.1 = k
  · simp [hp]
  · simp [hp]

theorem dictInsert_fresh {α : Type} (m : List (String × α)) (k : String) (v : α)
    (h : m.any (fun p => p.1 == k) = false) :
    dictInsert m k v = m ++ [(k, v)] := by
  simp only [dictInsert, h]
  simp

theorem dictInsert_keys_fresh {α : Type} (m : List (String × α)) (k : String) (v : α)
    (h : k ∉ m.map Prod.fst) :
    (dictInsert m k v).map Prod.fst = m.map Prod.fst ++ [k] := by
  rw [dictInsert_fresh m k v ((any_key_eq_false_iff m k).mpr h)]
  simp

theorem lookupStr_append {α : Type} (m₁ m₂ : List (String × α)) (k : String) :
    lookupStr (m₁ ++ m₂) k =
      match lookupStr m₁ k with
      | some v => some v
      | Option.none => lookupStr m₂ k := by
  induction m₁ with
  | nil => simp [lookupStr_nil]
  | cons p t ih =>
      rw [List.cons_append, lookupStr_cons, lookupStr_cons]
      by_cases h : p.1 = k <;> simp [h, ih]

theorem lookupStr_map_overwrite {α : Type} (m : List (String × α)) (k : String) (v : α) :
    lookupStr (m.map (fun p => if p.1 == k then (k, v) else p)) k =
      if k ∈ m.map Prod.fst then some v else Option.none := by
  induction m with
  | nil => simp [lookupStr_nil]
  | cons p t ih =>
      by_cases hp : p.1 = k
      · have he : (if p.1 == k then (k, v) else p) = (k, v) := by simp [hp]
        rw [List.map_cons, he, lookupStr_cons, if_pos rfl,
          if_pos (by simp [List.map_cons, List.mem_cons, hp.symm])]
      · have he : (if p.1 == k then (k, v) else p) = p := by simp [hp]
        rw [List.map_cons, he, lookupStr_cons, if_neg hp, ih]
        have hne : ¬ k = p.1 := fun hk => hp hk.symm
        by_cases hk : k ∈ t.map Prod.fst <;>
          simp [hk, List.map_cons, List.mem_cons, hne]

theorem lookupStr_map_overwrite_other {α : Type} (m : List (String × α)) (k k' : String)
    (v : α) (h : k' ≠ k) :
    lookupStr (m.map (fun p => if p.1 == k then (k, v) else p)) k' = lookupStr m k' := by
  induction m with
  | nil => rfl
  | cons p t ih =>
      by_cases hp : p.1 = k
      · have he : (if p.1 == k then (k, v) else p) = (k, v) := by simp [hp]
        rw [List.map_cons, he, lookupStr_cons, lookupStr_cons,
          if_neg (show ¬ (k, v).1 = k' from fun hh => h hh.symm),
          if_neg (show ¬ p.1 = k' from fun hh => h (by rw [← hh, hp]))]
        exact ih
      · have he : (if p.1 == k then (k, v) else p) = p := by simp [hp]
        rw [List.map_cons, he, lookupStr_cons, lookupStr_cons]
        by_cases hpk : p.1 = k'
        · simp [hpk]
        · rw [if_neg hpk, if_neg hpk]
          exact ih

theorem lookupStr_dictInsert_self {α : Type} (m : List (String × α)) (k : String) (v : α) :
    lookupStr (dictInsert m k v) k = some v := by
  by_cases h : m.any (fun p => p.1 == k) = true
  · have hk : k ∈ m.map Prod.fst := by
      by_contra hk
      rw [(any_key_eq_false_iff m k).mpr hk] at h
      exact Bool.false_ne_true h
    simp only [dictInsert, h, if_true]
    rw [lookupStr_map_overwrite, if_pos hk]
  · rw [dictInsert_fresh m k v (Bool.eq_false_iff.mpr h), lookupStr_append]
    have hnone : lookupStr m k = Option.none :=
      lookupStr_eq_none_of_not_mem m k ((any_key_eq_false_iff m k).mp (Bool.eq_false_iff.mpr h))
    simp [hnone, lookupStr_cons]

theorem lookupStr_dictInsert_other {α : Type} (m : List (String × α)) (k k' : String) (v : α)
    (h : k' ≠ k) : lookupStr (dictInsert m k v) k' = lookupStr m k' := by
  by_cases hany : m.any (fun p => p.1 == k) = true
  · simp only [dictInsert, hany, if_true]
    exact lookupStr_map_overwrite_other m k k' v h
  · rw [dictInsert_fresh m k v (Bool.eq_false_iff.mpr hany), lookupStr_append]
    have h1 : ¬ (k, v).1 = k' := fun hh => h hh.symm
    cases hm : lookupStr m k' <;> simp [lookupStr_cons, h1, lookupStr_nil]

/-! ## Fold lemmas for the dictionary-building loops -/

theorem foldl_dictInsert_guard_fresh {γ β : Type} (v : γ → β) (cond : String → Bool)
    (l : List (String × γ)) (acc : List (String × β))
    (hnd : (l.map Prod.fst).Nodup)
    (hfresh : ∀ p ∈ l, p.1 ∉ acc.map Prod.fst) :
    l.foldl (fun a p => if cond p.1 then a else dictInsert a p.1 (v p.2)) acc
      = acc ++ (l.filter (fun p => !cond p.1)).map (fun p => (p.1, v p.2)) := by
  induction l generalizing acc with
  | nil => simp
  | cons p t ih =>
      rw [List.map_cons] at hnd
      have hhd : p.1 ∉ t.map Prod.fst := (List.nodup_cons.mp hnd).1
      have hndt : (t.map Prod.fst).Nodup := (List.nodup_cons.mp hnd).2
      simp only [List.foldl_cons]
      by_cases hc : cond p.1
      · rw [if_pos hc, ih acc hndt (fun q hq => hfresh q (List.mem_cons_of_mem p hq))]
        simp [List.filter_cons, hc]
      · rw [if_neg hc,
          dictInsert_fresh acc p.1 (v p.2)
            ((any_key_eq_false_iff acc p.1).mpr (hfresh p (List.mem_cons_self p t)))]
        rw [ih (acc ++ [(p.1, v p.2)]) hndt ?_]
        · simp [List.filter_cons, hc, List.append_assoc]
        · intro q hq
          simp only [List.map_append, List.mem_append, not_or]
          refine ⟨hfresh q (List.mem_cons_of_mem p hq), ?_⟩
          simp only [List.map_cons, List.map_nil, List.mem_singleton]
          intro hqp
          exact hhd (hqp ▸ List.mem_map.mpr ⟨q, hq, rfl⟩)

theorem foldl_dictInsert_fresh {γ β : Type} (v : γ → β)
    (l : List (String × γ)) (acc : List (String × β))
    (hnd : (l.map Prod.fst).Nodup)
    (hfresh : ∀ p ∈ l, p.1 ∉ acc.map Prod.fst) :
    l.foldl (fun a p => dictInsert a p.1 (v p.2)) acc
      = acc ++ l.map (fun p => (p.1, v p.2)) := by
  have h := foldl_dictInsert_guard_fresh v (fun _ => false) l acc hnd hfresh
  simpa using h

theorem lookupStr_foldl_dictInsert {γ β : Type} (v : γ → β)
    (l : List (String × γ)) (acc : List (String × β))
    (hnd : (l.map Prod.fst).Nodup) (x : String) :
    lookupStr (l.foldl (fun a p => dictInsert a p.1 (v p.2)) acc) x =
      match lookupStr l x with
      | some fi => some (v fi)
      | Option.none => lookupStr acc x := by
  induction l generalizing acc with
  | nil => simp [lookupStr_nil]
  | cons p t ih =>
      rw [List.map_cons] at hnd
      have hhd : p.1 ∉ t.map Prod.fst := (List.nodup_cons.mp hnd).1
      have hndt : (t.map Prod.fst).Nodup := (List.nodup_cons.mp hnd).2
      simp only [List.foldl_cons]
      rw [ih (dictInsert acc p.1 (v p.2)) hndt, lookupStr_cons]
      by_cases hx : p.1 = x
      · have : lookupStr t x = Option.none :=
          lookupStr_eq_none_of_not_mem t x (hx ▸ hhd)
        rw [this, if_pos hx, ← hx, lookupStr_dictInsert_self]
      · rw [if_neg hx]
        cases ht : lookupStr t x
        · rw [lookupStr_dictInsert_other acc p.1 x (v p.2) (fun hh => hx hh.symm)]
        · rfl

theorem keys_foldl_dictInsert {γ β : Type} (v : γ → β)
    (l : List (String × γ)) (acc : List (String × β))
    (hnd : (l.map Prod.fst).Nodup) :
    (l.foldl (fun a p => dictInsert a p.1 (v p.2)) acc).map Prod.fst =
      acc.map Prod.fst ++
        (l.map Prod.fst).filter (fun n => !((acc.map Prod.fst).contains n)) := by
  induction l generalizing acc with
  | nil => simp
  | cons p t ih =>
      rw [List.map_cons] at hnd
      have hhd : p.1 ∉ t.map Prod.fst := (List.nodup_cons.mp hnd).1
      have hndt : (t.map Prod.fst).Nodup := (List.nodup_cons.mp hnd).2
      simp only [List.foldl_cons]
      rw [ih (dictInsert acc p.1 (v p.2)) hndt]
      by_cases hmem : p.1 ∈ acc.map Prod.fst
      · have hany : acc.any (fun q => q.1 == p.1) = true := by
          by_contra hh
          exact ((any_key_eq_false_iff acc p.1).mp (Bool.eq_false_iff.mpr hh)) hmem
        rw [dictInsert_keys_mem acc p.1 (v p.2) hany]
        have hcontains : (acc.map Prod.fst).contains p.1 = true := by
          simpa [List.elem_iff] using hmem
        simp [List.filter_cons, hmem]
      · rw [dictInsert_keys_fresh acc p.1 (v p.2) hmem]
        have hcontains : (acc.map Prod.fst).contains p.1 = false := by
          simp only [Bool.eq_false_iff, ne_eq]
          intro hh
          exact hmem (List.elem_iff.mp hh)
        have hfiltereq :
            (t.map Prod.fst).filter
              (fun n => !(((acc.map Prod.fst) ++ [p.1]).contains n)) =
            (t.map Prod.fst).filter (fun n => !((acc.map Prod.fst).contains n)) := by
          apply List.filter_congr
          intro n hn
          have hnp : ¬ n = p.1 := fun hh => hhd (hh ▸ hn)
          by_cases hna : n ∈ acc.map Prod.fst
          · simp [List.elem_iff, hna]
          · simp [List.elem_iff, hna, hnp]
        rw [hfiltereq]
        simp [List.filter_cons, hmem, List.append_assoc]

/-! ## Shape lemmas for the algebra operators -/

theorem lookupStr_map_value {α β : Type} (f : α → β) (l : List (String × α)) (x : String) :
    lookupStr (l.map (fun p => (p.1, f p.2))) x = (lookupStr l x).map f := by
  induction l with
  | nil => simp [lookupStr_nil]
  | cons p t ih =>
      rw [List.map_cons, lookupStr_cons, lookupStr_cons]
      by_cases h : p.1 = x <;> simp [h, ih]

theorem keys_map_value {α β : Type} (f : α → β) (l : List (String × α)) :
    (l.map (fun p => (p.1, f p.2))).map Prod.fst = l.map Prod.fst := by
  simp [List.map_map]

theorem createModelFromPairs_keys (l : List (String × (TypeDesc × FieldInfo))) :
    (createModelFromPairs l).map Prod.fst = l.map Prod.fst :=
  keys_map_value resolvedField l

theorem createModelFromPairs_lookup (l : List (String × (TypeDesc × FieldInfo))) (x : String) :
    lookupStr (createModelFromPairs l) x = (lookupStr l x).map resolvedField :=
  lookupStr_map_value resolvedField l x

/-- A stored field carrying an annotation is unchanged by the
tuple-and-resolve round trip of the algebra operators. -/
theorem resolvedField_fieldInfoToTuple (fi : FieldInfo) (h : fi.ann.isSome = true) :
    resolvedField (fieldInfoToTuple fi) = fi := by
  obtain ⟨a, ha⟩ := Option.isSome_iff_exists.mp h
  cases fi
  simp_all [resolvedField, fieldInfoToTuple]

/-- The field `make_optional` stores for a source field. -/
def partialResolvedField (fi : FieldInfo) : FieldInfo :=
  { ann := some (TypeDesc.optional (fi.ann.getD TypeDesc.anyType)),
    default := some PyVal.none, aliasName := fi.aliasName, title := fi.title,
    description := fi.description, examples := fi.examples,
    deprecated := fi.deprecated, metadata := [] }

/-- The field `make_required` stores for a source field. -/
def requiredResolvedField (fi : FieldInfo) : FieldInfo :=
  { ann := some (fi.ann.getD TypeDesc.anyType),
    default := Option.none, aliasName := fi.aliasName, title := fi.title,
    description := fi.description, examples := fi.examples,
    deprecated := fi.deprecated, metadata := [] }

theorem make_optional_eq_map (F : Schema) (hnd : (F.map Prod.fst).Nodup) :
    make_optional F = F.map (fun p => (p.1, partialResolvedField p.2)) := by
  unfold make_optional
  rw [foldl_dictInsert_fresh partialFieldTuple F [] hnd (by simp)]
  simp only [List.nil_append, createModelFromPairs, List.map_map]
  rfl

theorem make_required_eq_map (F : Schema) (hnd : (F.map Prod.fst).Nodup) :
    make_required F = F.map (fun p => (p.1, requiredResolvedField p.2)) := by
  unfold make_required
  rw [foldl_dictInsert_fresh requiredFieldTuple F [] hnd (by simp)]
  simp only [List.nil_append, createModelFromPairs, List.map_map]
  rfl

theorem omit_fields_eq_map (F : Schema) (names : List String)
    (hnd : (F.map Prod.fst).Nodup) :
    omit_fields F names =
      (F.filter (fun p => !names.contains p.1)).map
        (fun p => (p.1, resolvedField (fieldInfoToTuple p.2))) := by
  unfold omit_fields
  rw [foldl_dictInsert_guard_fresh fieldInfoToTuple (fun n => names.contains n) F []
    hnd (by simp)]
  simp only [List.nil_append, createModelFromPairs, List.map_map]
  rfl

theorem pick_foldlM_isOk (source : Schema) (names : List String)
    (acc : List (String × (TypeDesc × FieldInfo))) :
    (names.foldlM (pickStep source) acc).isOk =
      names.all (fun n => (lookupStr source n).isSome) := by
  induction names generalizing acc with
  | nil => simp [Except.isOk, Except.toBool, pure, Except.pure]
  | cons n t ih =>
      rw [List.foldlM_cons]
      cases hs : lookupStr source n
      · simp [pickStep, hs, Except.isOk, Except.toBool, Except.bind, bind]
      · simp only [pickStep, hs, List.all_cons, Option.isSome_some, Bool.true_and]
        rw [show (Except.ok (dictInsert acc n (fieldInfoToTuple _)) >>=
          fun a => t.foldlM (pickStep source) a) = t.foldlM (pickStep source)
            (dictInsert acc n (fieldInfoToTuple _)) from rfl]
        exact ih _

theorem pick_foldlM_ok_eq (source : Schema) (names : List String)
    (acc : List (String × (TypeDesc × FieldInfo)))
    (hnd : names.Nodup)
    (hmem : ∀ n ∈ names, n ∈ source.map Prod.fst)
    (hfresh : ∀ n ∈ names, n ∉ acc.map Prod.fst) :
    names.foldlM (pickStep source) acc =
      Except.ok (acc ++ names.map (fun n =>
        (n, fieldInfoToTuple ((lookupStr source n).getD FieldInfo.empty)))) := by
  induction names generalizing acc with
  | nil => simp [pure, Except.pure]
  | cons n t ih =>
      have hsome : (lookupStr source n).isSome = true :=
        (lookupStr_isSome_iff_mem source n).mpr (hmem n (List.mem_cons_self n t))
      obtain ⟨fi, hfi⟩ := Option.isSome_iff_exists.mp hsome
      rw [List.foldlM_cons]
      rw [show pickStep source acc n
          = Except.ok (dictInsert acc n (fieldInfoToTuple fi)) from by
        simp [pickStep, hfi]]
      rw [show (Except.ok (dictInsert acc n (fieldInfoToTuple fi)) >>=
        fun a => t.foldlM (pickStep source) a) = t.foldlM (pickStep source)
          (dictInsert acc n (fieldInfoToTuple fi)) from rfl]
      rw [dictInsert_fresh acc n _
        ((any_key_eq_false_iff acc n).mpr (hfresh n (List.mem_cons_self n t)))]
      rw [ih (acc ++ [(n, fieldInfoToTuple fi)]) (List.nodup_cons.mp hnd).2
        (fun m hm => hmem m (List.mem_cons_of_mem n hm)) ?_]
      · simp [hfi, List.append_assoc]
      · intro m hm
        simp only [List.map_append, List.mem_append, not_or]
        refine ⟨hfresh m (List.mem_cons_of_mem n hm), ?_⟩
        simp only [List.map_cons, List.map_nil, List.mem_singleton]
        intro hmn
        exact (List.nodup_cons.mp hnd).1 (hmn ▸ hm)

theorem merge_two_keys (A B : Schema)
    (hA : (A.map Prod.fst).Nodup) (hB : (B.map Prod.fst).Nodup) :
    (merge_schemas [A, B]).map Prod.fst =
      A.map Prod.fst ++
        (B.map Prod.fst).filter (fun n => !((A.map Prod.fst).contains n)) := by
  unfold merge_schemas
  simp only [List.foldl_cons, List.foldl_nil]
  rw [createModelFromPairs_keys,
    foldl_dictInsert_fresh fieldInfoToTuple A [] hA (by simp), List.nil_append,
    keys_foldl_dictInsert fieldInfoToTuple B _ hB, keys_map_value]

theorem merge_two_lookup_right (A B : Schema)
    (hA : (A.map Prod.fst).Nodup) (hB : (B.map Prod.fst).Nodup)
    (x : String) (fi : FieldInfo) (h : lookupStr B x = some fi) :
    lookupStr (merge_schemas [A, B]) x = some (resolvedField (fieldInfoToTuple fi)) := by
  unfold merge_schemas
  simp only [List.foldl_cons, List.foldl_nil]
  rw [createModelFromPairs_lookup,
    foldl_dictInsert_fresh fieldInfoToTuple A [] hA (by simp), List.nil_append,
    lookupStr_foldl_dictInsert fieldInfoToTuple B _ hB, h]
  rfl

theorem merge_two_lookup_left (A B : Schema)
    (hA : (A.map Prod.fst).Nodup) (hB : (B.map Prod.fst).Nodup)
    (x : String) (hx : x ∉ B.map Prod.fst) :
    lookupStr (merge_schemas [A, B]) x =
      (lookupStr A x).map (fun fi => resolvedField (fieldInfoToTuple fi)) := by
  unfold merge_schemas
  simp only [List.foldl_cons, List.foldl_nil]
  rw [createModelFromPairs_lookup,
    foldl_dictInsert_fresh fieldInfoToTuple A [] hA (by simp), List.nil_append,
    lookupStr_foldl_dictInsert fieldInfoToTuple B _ hB,
    lookupStr_eq_none_of_not_mem B x hx, lookupStr_map_value]
  cases lookupStr A x <;> rfl

/-! ## Claim theorems -/

/-- C3: for every builder value (an object on the heap) and every chain call
with structurally valid arguments, the call returns a new builder (a fresh
object appended to the heap, holding the updated copy) and never changes the
receiver: the heap entry of the receiver is exactly what it was before the
call. -/
theorem builder_chain_immutable (h : List StrState) (i : Nat) (c : ChainCall)
    (hi : i < h.length) :
    ((applyChainHeap h i c).1)[i]? = h[i]? ∧
    (applyChainHeap h i c).2 = h.length ∧
    ((applyChainHeap h i c).1)[(applyChainHeap h i c).2]? = some (applyChain h[i] c) := by
  have hsome : h[i]? = some h[i] := List.getElem?_eq_getElem hi
  refine ⟨?_, ?_, ?_⟩
  · simp only [applyChainHeap, hsome]
    rw [List.getElem?_append_left hi]
    exact hsome
  · simp only [applyChainHeap, hsome]
  · simp only [applyChainHeap, hsome]
    exact List.getElem?_concat_length h (applyChain h[i] c)

/-- Witness for C3 at a concrete heap holding the `string` singleton and the
chain call `min(3)`. -/
theorem builder_chain_immutable_witness :
    ((applyChainHeap [stringSingleton] 0 (ChainCall.minC 3)).1)[0]? = [stringSingleton][0]? ∧
    (applyChainHeap [stringSingleton] 0 (ChainCall.minC 3)).2 = [stringSingleton].length ∧
    ((applyChainHeap [stringSingleton] 0 (ChainCall.minC 3)).1)[
      (applyChainHeap [stringSingleton] 0 (ChainCall.minC 3)).2]? =
      some (applyChain [stringSingleton][0] (ChainCall.minC 3)) :=
  builder_chain_immutable [stringSingleton] 0 (ChainCall.minC 3) (by decide)

/-- C9: setting the same constraint twice via chaining overwrites the
earlier value — `b.min(n).min(m)` is the same builder state as `b.min(m)`,
and its `min_length` constraint is `m`. -/
theorem min_last_write_wins (b : StrState) (n m : Nat) :
    StringValidator.min (StringValidator.min b n) m = StringValidator.min b m ∧
    ((StringValidator.min (StringValidator.min b n) m).specific).minLength = some m :=
  ⟨rfl, rfl⟩

/-- C10: `optional()` is exactly `default(None)` on every builder (the
generic part holds for any `TyckType` payload and any function of the
builder state, so the two builders are indistinguishable — in particular
`build()` returns the same `(type, FieldInfo)` pair); the built field
carries `default = None`, and a schema synthesized from it accepts the field
being absent. -/
theorem optional_equals_default_none :
    (∀ (α β : Type) (b : TyckType α) (f : TyckType α → β),
      TyckType.optional b = TyckType.default b PyVal.none ∧
      f (TyckType.optional b) = f (TyckType.default b PyVal.none)) ∧
    (∀ s : StrState,
      ((StringValidator.build (TyckType.optional s)).2).default = some PyVal.none ∧
      validateSchema (createModelFromPairs
        [("f", StringValidator.build (TyckType.optional s))]) [] = true) := by
  refine ⟨fun α β b f => ⟨rfl, rfl⟩, fun s => ⟨rfl, ?_⟩⟩
  have hd : ((StringValidator.build (TyckType.optional s)).2).default = some PyVal.none := rfl
  simp [validateSchema, createModelFromPairs, resolvedField, validateField, lookupStr_nil, hd]

/-- The generated name depends only on the multiset of field names: sorting
makes it order-independent, and no constraint information enters the
hash. -/
theorem generatedInterfaceName_perm (l1 l2 : List String) (h : l1.Perm l2) :
    generatedInterfaceName l1 = generatedInterfaceName l2 := by
  have hanti : IsAntisymm String (fun a b : String => a ≤ b) :=
    ⟨fun a b h1 h2 => le_antisymm h1 h2⟩
  have hsort : l1.insertionSort (fun a b => a ≤ b) = l2.insertionSort (fun a b => a ≤ b) :=
    @List.eq_of_perm_of_sorted String (fun a b => a ≤ b) hanti _ _
      ((List.perm_insertionSort _ l1).trans (h.trans (List.perm_insertionSort _ l2).symm))
      (List.sorted_insertionSort _ l1)
      (List.sorted_insertionSort _ l2)
  unfold generatedInterfaceName
  rw [hsort]

/-- C4: without an explicit name, `interface` derives the schema name by
sorting the field names, joining them with underscores, and taking an
8-character MD5 suffix; two synthesis calls whose field-name sets agree (as
multisets, in any order) get the same generated name, whatever the field
definitions and their constraints are. -/
theorem interface_name_deterministic (fs1 fs2 : List (String × FieldDef))
    (h : (fs1.map Prod.fst).Perm (fs2.map Prod.fst)) :
    interfaceName fs1 Option.none = interfaceName fs2 Option.none := by
  simp only [interfaceName]
  exact generatedInterfaceName_perm _ _ h

/-- Witness for C4: two field mappings with the same names in a different
order and with different field definitions (a constrained builder versus a
raw type versus a bare default) get the same generated name. -/
theorem interface_name_deterministic_witness :
    interfaceName [("a", FieldDef.builder (StringValidator.min stringSingleton 2)),
                   ("b", FieldDef.rawType TypeDesc.int)] Option.none =
    interfaceName [("b", FieldDef.value (PyVal.str "x")),
                   ("a", FieldDef.builder (StringValidator.max stringSingleton 9))]
      Option.none :=
  interface_name_deterministic _ _ (by decide)

/-- Every branch of the field-definition dispatch returns a resolved
definition; the catch-all treats the value as a bare default. -/
theorem resolveFieldDef_ok (d : FieldDef) : ∃ r, resolveFieldDef d = Except.ok r := by
  cases d <;> exact ⟨_, rfl⟩

/-- The field-resolution loop of `interface` succeeds on every field
mapping. -/
theorem interfaceResolveFields_ok (fields : List (String × FieldDef)) :
    ∃ pf, interfaceResolveFields fields = Except.ok pf := by
  suffices h : ∀ acc, ∃ pf, fields.foldlM
      (fun acc p => (resolveFieldDef p.2).map (fun r => dictInsert acc p.1 r)) acc
      = Except.ok pf from h []
  induction fields with
  | nil => exact fun acc => ⟨acc, rfl⟩
  | cons p t ih =>
      intro acc
      obtain ⟨r, hr⟩ := resolveFieldDef_ok p.2
      obtain ⟨pf, hpf⟩ := ih (dictInsert acc p.1 r)
      refine ⟨pf, ?_⟩
      rw [List.foldlM_cons, hr]
      exact hpf

/-- C8 (amended): resolution during synthesis is total — every field
definition resolves (a shape that is none of the structured ones is treated
as a bare default value), `interface` never raises a
`SchemaDefinitionError`, and a schema is produced for every field
mapping. -/
theorem resolution_total :
    (∀ d : FieldDef, ∃ r, resolveFieldDef d = Except.ok r) ∧
    (∀ v : PyVal, resolveFieldDef (FieldDef.value v) = Except.ok (PydFieldDef.bareValue v)) ∧
    (∀ fields : List (String × FieldDef), ∃ pf, interfaceResolveFields fields = Except.ok pf) :=
  ⟨resolveFieldDef_ok, fun _ => rfl, interfaceResolveFields_ok⟩

/-- Counterexample for C8 as stated: the negation of "some field definition
makes resolution fail" — the resolver of `interface` has no failing branch
at all, so no `SchemaDefinitionError` is ever raised. -/
theorem resolution_never_fails :
    ¬ ∃ (fields : List (String × FieldDef)) (e : SchemaDefinitionError),
      interfaceResolveFields fields = Except.error e := by
  rintro ⟨fields, e, h⟩
  obtain ⟨pf, hpf⟩ := interfaceResolveFields_ok fields
  rw [hpf] at h
  exact Except.noConfusion h

/-- A concrete builder chain: `string.description("user name").title("Name").min(2)`. -/
def userNameBuilder : StrState :=
  StringValidator.min (TyckType.setTitle (TyckType.setDescription stringSingleton "user name") "Name") 2

/-- A concrete synthesized schema with one constrained string field,
`interface({"name": string.description("user name").title("Name").min(2)})`. -/
def UserS : Schema :=
  createModelFromPairs [("name", StringValidator.build userNameBuilder)]

/-- C1 (amended): `make_optional` keeps the field set, wraps every field
annotation in `Optional`, forces the default to `None` (so an empty value
set is accepted), and preserves the alias, title, description, examples and
deprecation metadata — but the content constraints of the original field are
not carried over: the derived field has an empty constraint set
(`partialResolvedField` has `metadata = []`). -/
theorem make_optional_amended (F : Schema) (hnd : (F.map Prod.fst).Nodup) :
    ((make_optional F).map Prod.fst = F.map Prod.fst) ∧
    (∀ x fi, lookupStr F x = some fi →
      lookupStr (make_optional F) x = some (partialResolvedField fi)) ∧
    validateSchema (make_optional F) [] = true := by
  have hmap := make_optional_eq_map F hnd
  refine ⟨?_, ?_, ?_⟩
  · rw [hmap]
    exact keys_map_value _ F
  · intro x fi h
    rw [hmap, lookupStr_map_value, h]
    rfl
  · rw [hmap]
    unfold validateSchema
    apply List.all_eq_true.mpr
    intro p hp
    obtain ⟨q, hq, rfl⟩ := List.mem_map.mp hp
    simp [validateField, lookupStr_nil, partialResolvedField]

/-- Witness for C1 (amended) at the concrete schema `UserS`. -/
theorem make_optional_amended_witness :
    ((make_optional UserS).map Prod.fst = UserS.map Prod.fst) ∧
    (∀ x fi, lookupStr UserS x = some fi →
      lookupStr (make_optional UserS) x = some (partialResolvedField fi)) ∧
    validateSchema (make_optional UserS) [] = true :=
  make_optional_amended UserS (by decide)

/-- Counterexample for C1 as stated: on `UserS` (field `name` constrained to
`min_length = 2`) the `make_optional` schema keeps no content constraint,
and the string `"A"`, rejected by the source schema, is accepted by the
partial schema even though the value is present. -/
theorem make_optional_drops_constraints :
    (lookupStr UserS "name").map FieldInfo.metadata = some [Constraint.minLength 2] ∧
    (lookupStr (make_optional UserS) "name").map FieldInfo.metadata = some [] ∧
    validateSchema UserS [("name", PyVal.str "A")] = false ∧
    validateSchema (make_optional UserS) [("name", PyVal.str "A")] = true := by
  decide

/-- C2 (amended): `make_required (make_optional schema)` strips every
default, making every field mandatory again — the empty value set, accepted
by the partial schema, is rejected by the required schema of any non-empty
source — but it does not restore the original fields: each field keeps the
`Optional`-wrapped annotation and the empty constraint set introduced by
`make_optional`. -/
theorem required_partial_amended (F : Schema) (hnd : (F.map Prod.fst).Nodup)
    (hne : F ≠ []) :
    (∀ p ∈ make_required (make_optional F), p.2.default = Option.none) ∧
    (∀ x fi, lookupStr F x = some fi →
      lookupStr (make_required (make_optional F)) x =
        some { partialResolvedField fi with default := Option.none }) ∧
    validateSchema (make_optional F) [] = true ∧
    validateSchema (make_required (make_optional F)) [] = false := by
  have hmo := make_optional_eq_map F hnd
  have hndo : ((make_optional F).map Prod.fst).Nodup := by
    rw [hmo, keys_map_value]
    exact hnd
  have hmr : make_required (make_optional F) =
      F.map (fun p => (p.1, requiredResolvedField (partialResolvedField p.2))) := by
    rw [make_required_eq_map (make_optional F) hndo, hmo, List.map_map]
    rfl
  refine ⟨?_, ?_, ?_, ?_⟩
  · intro p hp
    rw [hmr] at hp
    obtain ⟨q, hq, rfl⟩ := List.mem_map.mp hp
    rfl
  · intro x fi h
    rw [hmr]
    have hl := lookupStr_map_value
      (fun fi => requiredResolvedField (partialResolvedField fi)) F x
    rw [h] at hl
    exact hl.trans rfl
  · rw [hmo]
    unfold validateSchema
    apply List.all_eq_true.mpr
    intro p hp
    obtain ⟨q, hq, rfl⟩ := List.mem_map.mp hp
    simp [validateField, lookupStr_nil, partialResolvedField]
  · rw [hmr]
    cases F with
    | nil => exact absurd rfl hne
    | cons q t =>
        simp [validateSchema, validateField, lookupStr_nil, requiredResolvedField]

/-- Witness for C2 (amended) at the concrete schema `UserS`. -/
theorem required_partial_amended_witness :
    (∀ p ∈ make_required (make_optional UserS), p.2.default = Option.none) ∧
    (∀ x fi, lookupStr UserS x = some fi →
      lookupStr (make_required (make_optional UserS)) x =
        some { partialResolvedField fi with default := Option.none }) ∧
    validateSchema (make_optional UserS) [] = true ∧
    validateSchema (make_required (make_optional UserS)) [] = false :=
  required_partial_amended UserS (by decide) (by decide)

/-- Counterexample for C2 as stated: `make_required (make_optional UserS)`
does not restore the original content constraints — the string `"A"`
violates the source schema but passes the round-tripped schema, whose
`name` field keeps the `Optional[str]` annotation and an empty constraint
set. -/
theorem required_partial_not_inverse :
    validateSchema UserS [("name", PyVal.str "A")] = false ∧
    validateSchema (make_required (make_optional UserS)) [("name", PyVal.str "A")] = true ∧
    (lookupStr (make_required (make_optional UserS)) "name").map FieldInfo.ann =
      some (some (TypeDesc.optional TypeDesc.str)) ∧
    (lookupStr UserS "name").map FieldInfo.ann = some (some TypeDesc.str) ∧
    (lookupStr (make_required (make_optional UserS)) "name").map FieldInfo.metadata =
      some [] := by
  decide

/-- The four-field schema of the specification scenario,
`interface({"id": ..., "name": ..., "email": ..., "password": ...})`. -/
def UserFour : Schema :=
  createModelFromPairs
    [("id", (TypeDesc.int, FieldInfo.empty)),
     ("name", StringValidator.build stringSingleton),
     ("email", StringValidator.build (StringValidator.email stringSingleton)),
     ("password", StringValidator.build stringSingleton)]

theorem contains_eq_true_iff (l : List String) (a : String) :
    l.contains a = true ↔ a ∈ l := List.elem_iff

theorem map_fst_filter_key (F : List (String × FieldInfo)) (q : String → Bool) :
    (F.filter (fun p => q p.1)).map Prod.fst = (F.map Prod.fst).filter q := by
  induction F with
  | nil => rfl
  | cons p t ih =>
      rw [List.filter_cons, List.map_cons, List.filter_cons]
      by_cases hc : q p.1 = true
      · rw [if_pos hc, if_pos hc, List.map_cons, ih]
      · rw [if_neg hc, if_neg hc, ih]

/-- C5: for a schema with field set `F` and a duplicate-free subset `S` of
its field names, `pick` succeeds and its field set is exactly `S` in the
requested order, and the field set of `omit` is exactly the original field
list with the names of `S` removed, in the original order. -/
theorem pick_omit_field_sets (F : Schema) (S : List String)
    (hndF : (F.map Prod.fst).Nodup) (hndS : S.Nodup)
    (hsub : ∀ n ∈ S, n ∈ F.map Prod.fst) :
    (∃ P, pick_fields F S = Except.ok P ∧ P.map Prod.fst = S) ∧
    (omit_fields F S).map Prod.fst =
      (F.map Prod.fst).filter (fun n => !(S.contains n)) := by
  constructor
  · refine ⟨createModelFromPairs (S.map fun n =>
      (n, fieldInfoToTuple ((lookupStr F n).getD FieldInfo.empty))), ?_, ?_⟩
    · unfold pick_fields
      rw [pick_foldlM_ok_eq F S [] hndS hsub (by simp), List.nil_append]
      rfl
    · rw [createModelFromPairs_keys, List.map_map]
      exact (List.map_congr_left (fun a _ => rfl)).trans (List.map_id S)
  · rw [omit_fields_eq_map F S hndF]
    have hk := keys_map_value (fun fi => resolvedField (fieldInfoToTuple fi))
      (F.filter (fun p => !(S.contains p.1)))
    exact hk.trans (map_fst_filter_key F (fun n => !(S.contains n)))

/-- Witness for C5 at the specification scenario: picking `id, name` from
the four-field schema, and omitting the same names. -/
theorem pick_omit_field_sets_witness :
    (∃ P, pick_fields UserFour ["id", "name"] = Except.ok P ∧
      P.map Prod.fst = ["id", "name"]) ∧
    (omit_fields UserFour ["id", "name"]).map Prod.fst =
      (UserFour.map Prod.fst).filter (fun n => !(["id", "name"].contains n)) :=
  pick_omit_field_sets UserFour ["id", "name"] (by decide) (by decide) (by decide)

theorem foldl_congr_on_mem {α β : Type} (l : List α) (f g : β → α → β) (init : β)
    (h : ∀ b, ∀ a ∈ l, f b a = g b a) : l.foldl f init = l.foldl g init := by
  induction l generalizing init with
  | nil => rfl
  | cons x t ih =>
      rw [List.foldl_cons, List.foldl_cons, h init x (List.mem_cons_self x t)]
      exact ih _ (fun b a ha => h b a (List.mem_cons_of_mem x ha))

/-- C6: `pick` fails exactly when some requested name is absent from the
source schema (its success flag is the conjunction of the membership of
every requested name), whereas `omit` is total (it returns a schema for any
name list) and silently ignores names that are absent: adding an unknown
name to the omitted set does not change the result at all. -/
theorem pick_strict_omit_lenient (F : Schema) (S : List String) :
    ((pick_fields F S).isOk = S.all (fun n => (F.map Prod.fst).contains n)) ∧
    (∀ n, n ∉ F.map Prod.fst → omit_fields F (n :: S) = omit_fields F S) := by
  constructor
  · unfold pick_fields
    have hmapok : ∀ (e : Except String (List (String × (TypeDesc × FieldInfo)))),
        (e.map createModelFromPairs).isOk = e.isOk := by
      intro e
      cases e <;> rfl
    rw [hmapok, pick_foldlM_isOk]
    congr 1
    funext n
    by_cases h : n ∈ F.map Prod.fst
    · rw [(lookupStr_isSome_iff_mem F n).mpr h]
      exact ((contains_eq_true_iff _ n).mpr h).symm
    · rw [lookupStr_eq_none_of_not_mem F n h]
      show false = (F.map Prod.fst).contains n
      symm
      exact Bool.eq_false_iff.mpr (fun hb => h ((contains_eq_true_iff _ n).mp hb))
  · intro n hn
    unfold omit_fields
    congr 1
    apply foldl_congr_on_mem
    intro acc p hp
    have hpn : ¬ p.1 = n := fun he => hn (he ▸ List.mem_map.mpr ⟨p, hp, rfl⟩)
    have hcc : (n :: S).contains p.1 = S.contains p.1 := by
      by_cases hc : p.1 ∈ S
      · rw [(contains_eq_true_iff S p.1).mpr hc,
          (contains_eq_true_iff (n :: S) p.1).mpr (List.mem_cons_of_mem n hc)]
      · have h1 : ¬ p.1 ∈ n :: S := by
          rw [List.mem_cons, not_or]
          exact ⟨hpn, hc⟩
        rw [Bool.eq_false_iff.mpr
            (fun hb => hc ((contains_eq_true_iff S p.1).mp hb)),
          Bool.eq_false_iff.mpr
            (fun hb => h1 ((contains_eq_true_iff (n :: S) p.1).mp hb))]
    rw [hcc]

/-- Witness for C6: picking an unknown name from the four-field schema
fails, and omitting an unknown name is the same as not omitting it. -/
theorem pick_strict_omit_lenient_witness :
    ((pick_fields UserFour ["nope"]).isOk =
      ["nope"].all (fun n => (UserFour.map Prod.fst).contains n)) ∧
    omit_fields UserFour ("nope" :: ["password"]) = omit_fields UserFour ["password"] ∧
    (pick_fields UserFour ["nope"]).isOk = false :=
  ⟨(pick_strict_omit_lenient UserFour ["nope"]).1,
   (pick_strict_omit_lenient UserFour ["password"]).2 "nope" (by decide),
   by decide⟩

theorem lookupStr_mem {α : Type} (m : List (String × α)) (k : String) (v : α)
    (h : lookupStr m k = some v) : (k, v) ∈ m := by
  unfold lookupStr at h
  cases hf : m.find? (fun p => p.1 == k) with
  | none => rw [hf] at h; simp at h
  | some q =>
      rw [hf] at h
      simp only [Option.map_some'] at h
      have hmem := List.mem_of_find?_eq_some hf
      have hkey := List.find?_some hf
      have hq : q = (k, v) := by
        cases q with
        | mk a b =>
            simp only at h hkey
            rw [eq_of_beq hkey, Option.some.inj h]
      rw [← hq]
      exact hmem

/-- C7: merging two schemas that both define a field gives that field the
definition from the latest schema (last write wins), keeps every
non-colliding field of the first schema unchanged, and the merged field
list is the first schema's fields in order followed by the new fields of
the second schema in order (a colliding field keeps its original
position).  The annotation hypotheses state that the sources are resolved
schemas, whose stored fields always carry their annotation. -/
theorem merge_last_wins (A B : Schema)
    (hA : (A.map Prod.fst).Nodup) (hB : (B.map Prod.fst).Nodup)
    (hannA : ∀ p ∈ A, p.2.ann.isSome = true)
    (hannB : ∀ p ∈ B, p.2.ann.isSome = true) :
    (∀ x fi, lookupStr B x = some fi → lookupStr (merge_schemas [A, B]) x = some fi) ∧
    (∀ x, x ∉ B.map Prod.fst → lookupStr (merge_schemas [A, B]) x = lookupStr A x) ∧
    (merge_schemas [A, B]).map Prod.fst =
      A.map Prod.fst ++
        (B.map Prod.fst).filter (fun n => !((A.map Prod.fst).contains n)) := by
  refine ⟨?_, ?_, merge_two_keys A B hA hB⟩
  · intro x fi h
    rw [merge_two_lookup_right A B hA hB x fi h,
      resolvedField_fieldInfoToTuple fi (hannB (x, fi) (lookupStr_mem B x fi h))]
  · intro x hx
    rw [merge_two_lookup_left A B hA hB x hx]
    cases hA2 : lookupStr A x with
    | none => rfl
    | some fi =>
        simp only [Option.map_some']
        rw [resolvedField_fieldInfoToTuple fi (hannA (x, fi) (lookupStr_mem A x fi hA2))]

/-- First schema for the C7 witness: `x` constrained to `min_length = 1`,
plus a field `a`. -/
def MergeA : Schema :=
  createModelFromPairs
    [("x", StringValidator.build (StringValidator.min stringSingleton 1)),
     ("a", (TypeDesc.int, FieldInfo.empty))]

/-- Second schema for the C7 witness: `x` constrained to `min_length = 5`
instead, plus a field `b`. -/
def MergeB : Schema :=
  createModelFromPairs
    [("x", StringValidator.build (StringValidator.min stringSingleton 5)),
     ("b", (TypeDesc.bool, FieldInfo.empty))]

/-- Witness for C7 at two concrete schemas that disagree on field `x`. -/
theorem merge_last_wins_witness :
    (∀ x fi, lookupStr MergeB x = some fi →
      lookupStr (merge_schemas [MergeA, MergeB]) x = some fi) ∧
    (∀ x, x ∉ MergeB.map Prod.fst →
      lookupStr (merge_schemas [MergeA, MergeB]) x = lookupStr MergeA x) ∧
    (merge_schemas [MergeA, MergeB]).map Prod.fst =
      MergeA.map Prod.fst ++
        (MergeB.map Prod.fst).filter (fun n => !((MergeA.map Prod.fst).contains n)) :=
  merge_last_wins MergeA MergeB (by decide) (by decide) (by decide) (by decide)
